import Mathlib

/-!
Verification of the agent chat execution engine of the RI-SCALE model hub
(file `src/pages/AgentPage.tsx` together with the kernel-manager output
pipeline).  The relevant host (TypeScript) and sandbox (Python) code is
shallowly embedded as executable Lean definitions; properties of the
tool-calling loop, the completion-retry bridge, the session store and the
stdout response-marker protocol are then proved about those definitions.
-/

set_option maxHeartbeats 1000000

namespace AgentHub

/-! ### Generic string helpers

JavaScript's `String.prototype.includes`, `startsWith` and Python's `in`
are modelled on the underlying character lists. -/

/-- Character-list model of `a.startsWith(b)` (JS) / `str.startswith` (Python). -/
def strStartsWith (s pre : String) : Bool :=
  pre.data.isPrefixOf s.data

/-- Character-list model of `a.includes(c)` for a single character. -/
def strContainsChar (s : String) (c : Char) : Bool :=
  s.data.contains c

/-- Character-list model of "`needle` occurs inside `hay`". -/
def strContainsStr (hay needle : String) : Bool :=
  decide (needle.data <:+: hay.data)

/-- Python's `"\n".join(lines)`. -/
def joinLines : List String → String
  | [] => ""
  | [l] => l
  | l :: ls => l ++ "\n" ++ joinLines ls

/-! ### Stdout line reassembly (useKernelManager)

`handleStreamEvent` appends each raw stdout chunk to a buffer and
`processBuffer` splits the buffer on `'\n'`, emitting every complete
non-empty line through `onOutput` and keeping the trailing remainder;
`flushBuffers` emits the final non-empty remainder when the stream ends.
We model the text as `List Char`. -/

/-- The effect of `buffer.split('\n')` followed by `lines.pop()`: the first
component lists the complete segments of `l` (those terminated by `c`) and
the second component is the trailing remainder after the last separator. -/
def splitCR (c : Char) : List Char → List (List Char) × List Char
  | [] => ([], [])
  | x :: xs =>
    let s := splitCR c xs
    if x = c then ([] :: s.1, s.2)
    else
      match s.1 with
      | [] => ([], x :: s.2)
      | l :: ls => ((x :: l) :: ls, s.2)

/-- One `processBuffer` pass per chunk: append the chunk to the buffer, emit
every complete non-empty line, keep the remainder as the new buffer.  The
empty chunk list models end of stream, where `flushBuffers` emits the final
non-empty remainder. -/
def processChunksAux (buffer : List Char) : List (List Char) → List (List Char)
  | [] => if buffer = [] then [] else [buffer]
  | ch :: rest =>
    let s := splitCR '\n' (buffer ++ ch)
    s.1.filter (· ≠ []) ++ processChunksAux s.2 rest

/-- The complete sequence of `stdout` line contents delivered to `onOutput`
for a given chunking of the stream (initial buffer empty). -/
def emittedLines (chunks : List (List Char)) : List (List Char) :=
  processChunksAux [] chunks

/-- All non-empty lines of an unchunked stream, the final unterminated one
included. -/
def streamLines (s : List Char) : List (List Char) :=
  (splitCR '\n' s).1.filter (· ≠ []) ++
    (if (splitCR '\n' s).2 = [] then [] else [(splitCR '\n' s).2])

/-! ### Response-marker extraction (runChatExecution's onOutput handler)

The handler checks `content.includes('__RESPONSE_START__:')`, splits on the
marker and resolves with `parts[1].trim()` (further JSON-decoded downstream);
`safeResolve` settles the pending promise only once, so the first marker line
wins. -/

/-- The distinguished response prefix emitted by `send_response`. -/
def responseMarker : List Char := "__RESPONSE_START__:".data

/-- Drop everything up to and including the first occurrence of `sep`;
`none` when `sep` does not occur.  Models the `includes` test together with
taking `parts[1]`'s start of `content.split(sep)`. -/
def dropThroughSeq (sep : List Char) : List Char → Option (List Char)
  | [] => if sep = [] then some [] else none
  | x :: xs =>
    if sep.isPrefixOf (x :: xs) then some ((x :: xs).drop sep.length)
    else dropThroughSeq sep xs

/-- Take characters up to (excluding) the next occurrence of `sep`, i.e. the
end of `parts[1]` of `content.split(sep)`. -/
def takeToSeq (sep : List Char) : List Char → List Char
  | [] => []
  | x :: xs => if sep.isPrefixOf (x :: xs) then [] else x :: takeToSeq sep xs

/-- The whitespace set of JavaScript's `String.prototype.trim` (common ASCII
subset). -/
def isJsSpace (c : Char) : Bool :=
  c = ' ' || c = '\n' || c = '\t' || c = '\r' || c = '\x0b' || c = '\x0c'

/-- `s.trim()`. -/
def trimChars (l : List Char) : List Char :=
  ((l.dropWhile isJsSpace).reverse.dropWhile isJsSpace).reverse

/-- What one stdout line contributes to the pending chat promise: for a line
containing the marker, the trimmed first complete value following it
(`parts[1].trim()`); otherwise nothing. -/
def extractPayload (line : List Char) : Option (List Char) :=
  (dropThroughSeq responseMarker line).map fun rest =>
    trimChars (takeToSeq responseMarker rest)

/-- The value the pending chat execution settles with, for a given chunking
of the sandbox stdout stream: the first line whose extraction succeeds
(`safeResolve` ignores later resolutions). -/
def hostSettledPayload (chunks : List (List Char)) : Option (List Char) :=
  (emittedLines chunks).findSome? extractPayload

/-- The first complete value following the marker in the unchunked stream. -/
def firstResponsePayload (s : List Char) : Option (List Char) :=
  (streamLines s).findSome? extractPayload

/-! ### The agent tool-calling loop (`_chat_wrapper`)

The sandboxed Python loop is embedded with:
* tool functions as pure maps from keyword-argument objects to either an
  output text (`str(...)` already applied) or a raised-exception text;
* argument objects as string-keyed, string-valued association lists
  (keyword arguments are a dict, so a function sees the canonically sorted
  object);
* the completion proxy, and the event-loop clock read once per iteration,
  as oracles indexed by the iteration number;
* the `while True:` loop as structural recursion on
  `fuel = max_turns - turns`, which is the code's remaining-turn budget:
  `turns >= max_turns` holds exactly when the fuel is exhausted. -/

def AGENT_TOOL_EXECUTION_LIMIT : Nat := 50

def AGENT_ITERATION_SOFT_TIMEOUT_MS : Nat := 90000

/-- A keyword-argument object (the result of parsing the tool arguments). -/
abbrev ArgsObj := List (String × String)

def insertByKey (p : String × String) : ArgsObj → ArgsObj
  | [] => [p]
  | q :: qs => if p.1 ≤ q.1 then p :: q :: qs else q :: insertByKey p qs

/-- Python `dict` semantics: insertion order is canonicalized away by
`json.dumps(..., sort_keys=True)` (key-insertion sort). -/
def sortArgs : ArgsObj → ArgsObj
  | [] => []
  | p :: ps => insertByKey p (sortArgs ps)

def joinComma : List String → String
  | [] => ""
  | [x] => x
  | x :: xs => x ++ ", " ++ joinComma xs

def renderPair (p : String × String) : String :=
  "\"" ++ p.1 ++ "\": \"" ++ p.2 ++ "\""

/-- `json.dumps(function_args, sort_keys=True, ensure_ascii=False)`. -/
def canonArgs (a : ArgsObj) : String :=
  "\x7b" ++ joinComma ((sortArgs a).map renderPair) ++ "\x7d"

/-- `cache_key = f"{function_name}:{json.dumps(function_args, sort_keys=True, ...)}"` -/
def cacheKey (n : String) (a : ArgsObj) : String :=
  n ++ ":" ++ canonArgs a

instance : DecidableEq (Except String ArgsObj) := fun a b =>
  match a, b with
  | .ok x, .ok y => decidable_of_iff (x = y) (by simp)
  | .error x, .error y => decidable_of_iff (x = y) (by simp)
  | .ok _, .error _ => isFalse (by simp)
  | .error _, .ok _ => isFalse (by simp)

/-- One `tool_call` entry of an assistant message.  `args` is the result of
parsing `tool_call['function']['arguments']`: `Except.error` models malformed
JSON together with the parse-error text. -/
structure ToolCall where
  id : String
  name : String
  args : Except String ArgsObj
deriving DecidableEq, Repr

/-- `result['choices'][0]['message']`; an absent/empty `tool_calls` is the
empty list. -/
structure AssistantMsg where
  content : Option String
  tool_calls : List ToolCall
deriving DecidableEq, Repr

/-- A tool-role message appended by the loop. -/
structure ToolMsg where
  tool_call_id : String
  name : String
  content : String
deriving DecidableEq, Repr

/-- Conversation entries of the Python `messages` list. -/
inductive Msg where
  | chat (role : String) (content : String)
  | assistant (m : AssistantMsg)
  | tool (tm : ToolMsg)
deriving DecidableEq, Repr

/-- A parsed `hypha_chat_proxy` response: unparseable JSON, an
`{"error": ...}` payload, or a successful choice message. -/
inductive ProxyResult where
  | parseError (e : String)
  | errorPayload (e : String)
  | ok (m : AssistantMsg)
deriving DecidableEq, Repr

/-- A discovered tool function: from keyword arguments to normal-return text
or raised-exception text. -/
abbrev ToolFun := ArgsObj → Except String String

abbrev ToolEnv := String → Option ToolFun

abbrev Cache := List (String × String)

def invalidArgsText (n e : String) : String :=
  "Error: Invalid tool arguments for '" ++ n ++ "': " ++ e

def unavailableText (n : String) : String :=
  "Error: Tool '" ++ n ++ "' is not available."

/-- Result of executing the tool calls of one assistant message. -/
structure ExecResult where
  msgs : List ToolMsg
  cache : Cache
  newSucc : List (String × String)
  invoked : List (String × ArgsObj)
deriving Repr

/-- The `for tool_call in tool_calls:` body: parse arguments (malformed JSON
becomes a tool-error result), look the function up, consult the per-execution
result cache, invoke on a miss (exceptions become tool-error results and are
not cached), and append exactly one tool message per call. -/
def execToolCalls (env : ToolEnv) (cache : Cache) : List ToolCall → ExecResult
  | [] => ⟨[], cache, [], []⟩
  | c :: rest =>
    match c.args with
    | .error e =>
      let r := execToolCalls env cache rest
      ⟨⟨c.id, c.name, invalidArgsText c.name e⟩ :: r.msgs, r.cache, r.newSucc, r.invoked⟩
    | .ok a =>
      match env c.name with
      | none =>
        let r := execToolCalls env cache rest
        ⟨⟨c.id, c.name, unavailableText c.name⟩ :: r.msgs, r.cache, r.newSucc, r.invoked⟩
      | some f =>
        match cache.lookup (cacheKey c.name a) with
        | some out =>
          let r := execToolCalls env cache rest
          ⟨⟨c.id, c.name, out⟩ :: r.msgs, r.cache, (c.name, out) :: r.newSucc, r.invoked⟩
        | none =>
          match f (sortArgs a) with
          | .ok out =>
            let r := execToolCalls env ((cacheKey c.name a, out) :: cache) rest
            ⟨⟨c.id, c.name, out⟩ :: r.msgs, r.cache, (c.name, out) :: r.newSucc,
              (c.name, sortArgs a) :: r.invoked⟩
          | .error e =>
            let r := execToolCalls env cache rest
            ⟨⟨c.id, c.name, "Error: " ++ e⟩ :: r.msgs, r.cache, r.newSucc,
              (c.name, sortArgs a) :: r.invoked⟩

/-- `_short_text(value, max_len)`. -/
def shortText (maxLen : Nat) (s : String) : String :=
  if s.length ≤ maxLen then s else s.take maxLen ++ "..."

def summaryHeader : String :=
  "I executed the available tool(s) and collected these results:"

def summaryItemLines : Nat → List (String × String) → List String
  | _, [] => []
  | i, (n, out) :: rest =>
    (toString i ++ ". " ++ (if n = "" then "tool" else n) ++ ": " ++ shortText 600 out)
      :: summaryItemLines (i + 1) rest

/-- `_summarize_tool_results()`. -/
def summarizeToolResults (rs : List (String × String)) : Option String :=
  if rs = [] then none
  else some (joinLines
    (summaryHeader :: summaryItemLines 1 (rs.take 5) ++
      (if 5 < rs.length then
        ["...and " ++ toString (rs.length - 5) ++ " more tool result(s)."]
      else [])))

def limitMessage : String :=
  "I reached the tool execution limit before finishing. Please try again."

def proxyParseErrorText (e : String) : String :=
  "Error from proxy: Invalid JSON response (" ++ e ++ ")"

def proxyErrorText (e : String) : String :=
  "Error from proxy: " ++ e

def parseFallbackText (summary e : String) : String :=
  summary ++
    "\n\nI’m returning the best results gathered so far because a follow-up model response could not be parsed (" ++
    e ++ ")."

def errorFallbackText (summary e : String) : String :=
  summary ++
    "\n\nI’m returning the best results gathered so far because the follow-up model call failed: " ++ e

def finalizeSystemText (softTimeoutMs : Nat) : String :=
  "You have been working for about " ++ toString (softTimeoutMs / 1000) ++
    " seconds. Provide the best possible final answer now using the tool results and errors already collected. Do not call additional tools unless absolutely necessary."

/-- Static data of one `_chat_wrapper` execution. -/
structure LoopCfg where
  env : ToolEnv
  hasTools : Bool
  maxTurns : Nat
  softTimeoutMs : Nat
  deadline : Nat
  service : Nat → ProxyResult
  times : Nat → Nat

/-- Observable data of one tool-executing iteration. -/
structure TurnRecord where
  msgsBefore : List Msg
  assistantMsg : AssistantMsg
  toolMsgs : List ToolMsg
  time : Nat
  injectedNow : Bool
  toolChoiceSent : Option String
  sentMessages : List Msg
deriving DecidableEq, Repr

structure RunResult where
  outcome : Option String
  finalMessages : List Msg
  trace : List TurnRecord
  invoked : List (String × ArgsObj)
deriving Repr

/-- Choose the follow-up-failure response: the tool-output summary fallback
when any tool call succeeded so far, otherwise the bare proxy error. -/
def followupFailureText (succ : List (String × String))
    (fallback : String → String) (bare : String) : String :=
  if 0 < succ.length then
    match summarizeToolResults succ with
    | some s => if s = "" then bare else fallback s
    | none => bare
  else bare

/-- The `while True:` loop of `_chat_wrapper`, by recursion on the remaining
turn budget `fuel = max_turns - turns` (so `fuel = 0` iff
`turns >= max_turns`). -/
def runLoop (cfg : LoopCfg) : Nat → AssistantMsg → Nat → List Msg → Cache →
    List (String × String) → Bool → RunResult
  | fuel, rm, turns, msgs, cache, succ, requested =>
    if rm.tool_calls.isEmpty then ⟨rm.content, msgs, [], []⟩
    else
      match fuel with
      | 0 => ⟨some limitMessage, msgs, [], []⟩
      | fuel' + 1 =>
        let msgs1 := msgs ++ [Msg.assistant rm]
        let ex := execToolCalls cfg.env cache rm.tool_calls
        let msgs2 := msgs1 ++ ex.msgs.map Msg.tool
        let t := cfg.times turns
        let inj := decide (cfg.deadline ≤ t) && !requested
        let requested1 := requested || decide (cfg.deadline ≤ t)
        let msgs3 :=
          if inj then msgs2 ++ [Msg.chat "system" (finalizeSystemText cfg.softTimeoutMs)]
          else msgs2
        let succ1 := succ ++ ex.newSucc
        let tc : Option String :=
          if cfg.hasTools then some (if requested1 then "none" else "auto") else none
        let rec0 : TurnRecord := ⟨msgs, rm, ex.msgs, t, inj, tc, msgs3⟩
        match cfg.service turns with
        | .parseError e =>
          ⟨some (followupFailureText succ1 (parseFallbackText · e) (proxyParseErrorText e)),
            msgs3, [rec0], ex.invoked⟩
        | .errorPayload e =>
          ⟨some (followupFailureText succ1 (errorFallbackText · e) (proxyErrorText e)),
            msgs3, [rec0], ex.invoked⟩
        | .ok rm2 =>
          let r := runLoop cfg fuel' rm2 (turns + 1) msgs3 ex.cache succ1 requested1
          ⟨r.outcome, r.finalMessages, rec0 :: r.trace, ex.invoked ++ r.invoked⟩

/-- `_chat_wrapper` from the first proxy response onward: an initial failure
short-circuits (no tool results exist yet); otherwise the loop starts with
`turns = 0`, an empty result cache, no successful results and no finalize
request. -/
def chatWrapper (cfg : LoopCfg) (history : List Msg) (first : ProxyResult) : RunResult :=
  match first with
  | .parseError e => ⟨some (proxyParseErrorText e), history, [], []⟩
  | .errorPayload e => ⟨some (proxyErrorText e), history, [], []⟩
  | .ok rm => runLoop cfg cfg.maxTurns rm 0 history [] [] false

/-! ### Result-cache lemmas -/

/-- 1 when `k` is present in the per-execution result cache, else 0. -/
def cacheHit (cache : Cache) (k : String) : Nat :=
  if (cache.lookup k).isSome then 1 else 0

/-! ### Fallback-summary lemmas -/

/-- The text `_summarize_tool_results` renders for a nonempty result list:
header, up to five numbered item lines, and an overflow notice for any
further results. -/
def summaryText (rs : List (String × String)) : String :=
  joinLines
    (summaryHeader :: summaryItemLines 1 (rs.take 5) ++
      (if 5 < rs.length then
        ["...and " ++ toString (rs.length - 5) ++ " more tool result(s)."]
      else []))

/-! ### The completion bridge retry loop (`hypha_chat_proxy`)

The JS bridge calls `chat_completion` up to 3 times.  A returned payload is
checked by `isTimeoutPayload`; only a timeout-flavoured payload (or a thrown
error) triggers a retry, re-resolving the proxy service with the
prefer-alternate flag from the second attempt onward.  The attempts are an
oracle indexed by the 1-based attempt number. -/

/-- A `chat_completion` payload, restricted to the shapes `isTimeoutPayload`
inspects: a string, an object with optional `error`/`message` string fields,
or a null-ish value. -/
inductive Payload where
  | str (s : String)
  | obj (error : Option String) (message : Option String)
  | null
deriving DecidableEq, Repr

/-- Character-wise lower-casing (the `i` regex flag). -/
def lowerStr (s : String) : String :=
  ⟨s.data.map Char.toLower⟩

/-- `/request timed out|timed out|timeout/i.test(s)`. -/
def containsTimeoutPhrase (s : String) : Bool :=
  strContainsStr (lowerStr s) "request timed out" ||
    strContainsStr (lowerStr s) "timed out" ||
    strContainsStr (lowerStr s) "timeout"

/-- `isTimeoutPayload` (AgentPage).  A falsy payload (null or the empty
string) is not a timeout; an object is probed via `error ?? message`. -/
def isTimeoutPayload : Payload → Bool
  | .null => false
  | .str s => if s = "" then false else containsTimeoutPhrase s
  | .obj err msg =>
    match err with
    | some e => containsTimeoutPhrase e
    | none =>
      match msg with
      | some m => containsTimeoutPhrase m
      | none => false

/-- A payload carrying an application-level error string. -/
def hasErrorString : Payload → Bool
  | .obj (some _) _ => true
  | _ => false

/-- One attempt either returns a payload or throws (timeout of the wrapped
promise, resolution failure, transport error). -/
inductive AttemptResult where
  | value (p : Payload)
  | thrown (m : String)
deriving DecidableEq, Repr

/-- Per attempt: whether the proxy service was re-resolved
(`resolveChatProxyService(true, preferAlternate)` is used iff
`attempt > 1`), and the prefer-alternate flag passed to it. -/
structure AttemptRecord where
  reResolved : Bool
  preferAlternate : Bool
deriving DecidableEq, Repr

def timeoutRetryNote : String :=
  "Request timed out from chat proxy; retrying with alternate service if available."

/-- The `for (attempt = 1; attempt <= 3; ...)` loop of `hypha_chat_proxy`,
by recursion on the remaining attempts (`fuel = 3 - attempt + 1`).  Returns
the final `result`, the final `completionError` and the attempt records. -/
def completionAttempts (oracle : Nat → AttemptResult) :
    Nat → Nat → Option Payload → Option String → List AttemptRecord →
    Option Payload × Option String × List AttemptRecord
  | 0, _, result, cerr, calls => (result, cerr, calls)
  | fuel + 1, attempt, result, cerr, calls =>
    let calls' := calls ++ [⟨decide (1 < attempt), decide (1 < attempt)⟩]
    match oracle attempt with
    | .value p =>
      if isTimeoutPayload p && decide (attempt < 3) then
        completionAttempts oracle fuel (attempt + 1) (some p)
          (some timeoutRetryNote) calls'
      else (some p, none, calls')
    | .thrown m =>
      if decide (attempt < 3) then
        completionAttempts oracle fuel (attempt + 1) result (some m) calls'
      else (result, some m, calls')

/-- The overall outcome of `hypha_chat_proxy`'s completion stage: a pending
`completionError` is thrown, a timeout-flavoured final payload is converted
to a thrown `'Request timed out.'`, anything else is returned. -/
def hyphaChatCompletionResult (oracle : Nat → AttemptResult) :
    Except String Payload :=
  match completionAttempts oracle 3 1 none none [] with
  | (_, some m, _) => .error m
  | (result, none, _) =>
    match result with
    | some p => if isTimeoutPayload p then .error "Request timed out." else .ok p
    | none => .ok .null

/-- The attempt records of a full bridge call. -/
def completionCallRecords (oracle : Nat → AttemptResult) : List AttemptRecord :=
  (completionAttempts oracle 3 1 none none []).2.2

/-! ### The session store (`saveSession`)

The artifact manager is the external staged-record CRUD service of §6; its
records are modelled as an association list from artifact ids (of the shape
`workspace/alias`, with `create` allocating a fresh alias in the caller's
workspace) to a staging flag, manifest fields and uploaded files.  Because a
record can leave staging state concurrently (the situation the code's
`'Artifact must be in staging mode'` handling exists for), the outcome of
each artifact-manager call is drawn from a script of planned outcomes (an
empty script means every call succeeds); the `fetch`-PUT upload itself is
not failure-scripted.  Messages are carried opaquely: the uploaded
`messages.json` payload is the given message list itself. -/

abbrev ChatMsgs := List String

structure SessionRec where
  staged : Bool
  manifestName : String
  agentId : String
  files : List (String × ChatMsgs)
deriving DecidableEq, Repr

structure Store where
  recs : List (String × SessionRec)
  fresh : Nat
deriving DecidableEq, Repr

inductive OpOutcome where
  | ok
  | errStaging
  | errOther (m : String)
deriving DecidableEq, Repr

inductive SaveOp where
  | create (id : String)
  | read (id : String)
  | edit (id : String)
  | putFile (id : String)
  | fetchPut (id : String)
  | commit (id : String)
deriving DecidableEq, Repr

def SaveOp.target : SaveOp → String
  | .create id => id
  | .read id => id
  | .edit id => id
  | .putFile id => id
  | .fetchPut id => id
  | .commit id => id

def nextOutcome : List OpOutcome → OpOutcome × List OpOutcome
  | [] => (.ok, [])
  | o :: os => (o, os)

def DEFAULT_CHAT_TITLE : String := "New Chat"

/-- The id `create` with `alias: "{uuid}"` allocates for the caller's
workspace. -/
def mkFreshId (ws : String) (n : Nat) : String :=
  ws ++ "/" ++ "u" ++ toString n

def updateRec (st : Store) (id : String) (f : SessionRec → SessionRec) : Store :=
  { st with recs := st.recs.map fun p => if p.1 = id then (p.1, f p.2) else p }

def stageRec (name agId : String) (r : SessionRec) : SessionRec :=
  { r with staged := true, manifestName := name, agentId := agId }

def commitRec (r : SessionRec) : SessionRec :=
  { r with staged := false }

def putMessagesFile (msgs : ChatMsgs) (r : SessionRec) : SessionRec :=
  { r with files := ("messages.json", msgs) :: r.files }

structure SaveResult where
  result : Option String
  store : Store
  trace : List SaveOp
deriving Repr

/-- The tail of `doSave` from the first `am.edit` on: stage-edit → `put_file`
(re-staging and retrying it once on an `'Artifact must be in staging mode'`
failure) → PUT upload → `commit` (re-staging and retrying the
edit/upload/commit tail once on the same staging failure).  Any other
failure propagates to the surrounding catch, which surfaces `null`. -/
def saveWriteProtocol (aid name agId : String) (msgs : ChatMsgs) (store : Store)
    (script : List OpOutcome) (trace : List SaveOp) : SaveResult :=
  -- am.edit(artifact_id, manifest, stage: true)
  let (o1, script) := nextOutcome script
  let trace := trace ++ [.edit aid]
  match o1 with
  | .ok =>
    let store := updateRec store aid (stageRec name agId)
    -- am.put_file(artifact_id, "messages.json")
    let (o2, script) := nextOutcome script
    let trace := trace ++ [.putFile aid]
    let afterPut : Option (Store × List OpOutcome × List SaveOp) :=
      match o2 with
      | .ok => some (store, script, trace)
      | .errStaging =>
        -- re-stage and retry the upload once
        let (o2a, script) := nextOutcome script
        let trace := trace ++ [.edit aid]
        match o2a with
        | .ok =>
          let store := updateRec store aid (stageRec name agId)
          let (o2b, script) := nextOutcome script
          let trace := trace ++ [.putFile aid]
          match o2b with
          | .ok => some (store, script, trace)
          | _ => none
        | _ => none
      | .errOther _ => none
    match afterPut with
    | none => ⟨none, store, trace ++ []⟩
    | some (store, script, trace) =>
      -- fetch(putUrl, PUT body)
      let store := updateRec store aid (putMessagesFile msgs)
      let trace := trace ++ [.fetchPut aid]
      -- am.commit(artifact_id)
      let (o3, script) := nextOutcome script
      let trace := trace ++ [.commit aid]
      match o3 with
      | .ok => ⟨some aid, updateRec store aid commitRec, trace⟩
      | .errStaging =>
        -- re-stage and retry edit/upload/commit once
        let (o4, script) := nextOutcome script
        let trace := trace ++ [.edit aid]
        match o4 with
        | .ok =>
          let store := updateRec store aid (stageRec name agId)
          let (o5, script) := nextOutcome script
          let trace := trace ++ [.putFile aid]
          match o5 with
          | .ok =>
            let store := updateRec store aid (putMessagesFile msgs)
            let trace := trace ++ [.fetchPut aid]
            let (o6, _script) := nextOutcome script
            let trace := trace ++ [.commit aid]
            match o6 with
            | .ok => ⟨some aid, updateRec store aid commitRec, trace⟩
            | _ => ⟨none, store, trace⟩
          | _ => ⟨none, store, trace⟩
        | _ => ⟨none, store, trace⟩
      | .errOther _ => ⟨none, store, trace⟩
  | _ => ⟨none, store, trace⟩

/-- `doSave` of `saveSession`: logged-in check, fork detection for a
foreign-workspace id, record creation for a null id, title preservation for
an existing record saved without an explicit title, then the staged write
protocol.  (The claims under verification presuppose an existing session
collection, so a missing collection together with a null id surfaces as a
failed save.) -/
def saveSessionCore (ws : String) (loggedIn : Bool) (collectionId : Option String)
    (sessionId : Option String) (msgs : ChatMsgs) (agId : String)
    (title : Option String) (store : Store) (script : List OpOutcome) : SaveResult :=
  if !loggedIn then ⟨none, store, []⟩
  else
    -- fork check: a foreign-workspace id is reset to null, forcing creation
    let sid : Option String :=
      match sessionId with
      | some s =>
        if strContainsChar s '/' && !strStartsWith s (ws ++ "/") then none
        else some s
      | none => none
    if collectionId.isNone && sid.isNone then ⟨none, store, []⟩
    else
      let name0 := title.getD DEFAULT_CHAT_TITLE
      match sid with
      | none =>
        -- am.create(type: "generic", alias: "{uuid}", stage: true, ...)
        let (o, script) := nextOutcome script
        let nid := mkFreshId ws store.fresh
        let trace := [SaveOp.create nid]
        match o with
        | .ok =>
          let store : Store :=
            ⟨(nid, ⟨true, name0, agId, []⟩) :: store.recs, store.fresh + 1⟩
          saveWriteProtocol nid name0 agId msgs store script trace
        | _ => ⟨none, store, trace⟩
      | some aid =>
        -- not created now: preserve the existing title when none is given
        match title with
        | some t => saveWriteProtocol aid t agId msgs store script []
        | none =>
          let (o, script) := nextOutcome script
          let trace := [SaveOp.read aid]
          let name1 :=
            match o with
            | .ok =>
              match store.recs.lookup aid with
              | some r => r.manifestName
              | none => name0
            | _ => name0  -- read failures are swallowed
          saveWriteProtocol aid name1 agId msgs store script trace

/-! ### Theorems -/


theorem data_append (a b : String) : (a ++ b).data = a.data ++ b.data := rfl

theorem splitCR_not_mem_snd (c : Char) (l : List Char) : c ∉ (splitCR c l).2 := by
  induction l with
  | nil => simp [splitCR]
  | cons x xs ih =>
    simp only [splitCR]
    by_cases hx : x = c
    · simpa [hx] using ih
    · rcases h : (splitCR c xs).1 with _ | ⟨y, ys⟩
      · simp only [if_neg hx, List.mem_cons, not_or]
        exact ⟨fun hc => hx hc.symm, ih⟩
      · simpa [hx] using ih

theorem splitCR_of_not_mem (c : Char) (l : List Char) (h : c ∉ l) :
    splitCR c l = ([], l) := by
  induction l with
  | nil => simp [splitCR]
  | cons x xs ih =>
    simp only [List.mem_cons, not_or] at h
    have hx : ¬x = c := fun hx => h.1 hx.symm
    simp only [splitCR, ih h.2, if_neg hx]

/-- Splitting a concatenation: the first part's complete segments are kept
and its remainder is prepended to the rest of the stream. -/
theorem splitCR_append (c : Char) (a b : List Char) :
    splitCR c (a ++ b) =
      ((splitCR c a).1 ++ (splitCR c ((splitCR c a).2 ++ b)).1,
        (splitCR c ((splitCR c a).2 ++ b)).2) := by
  induction a with
  | nil => simp [splitCR]
  | cons x xs ih =>
    by_cases hx : x = c
    · simp only [List.cons_append, splitCR, List.append_eq, ih, if_pos hx,
        List.nil_append]
    · rcases h : (splitCR c xs).1 with _ | ⟨l, ls⟩
      · simp only [List.cons_append, splitCR, List.append_eq, ih, h, if_neg hx,
          List.nil_append]
      · simp only [List.cons_append, splitCR, List.append_eq, ih, h, if_neg hx,
          List.cons_append, List.nil_append]

theorem processChunksAux_eq (buffer : List Char) (chunks : List (List Char))
    (hb : '\n' ∉ buffer) :
    processChunksAux buffer chunks = streamLines (buffer ++ chunks.flatten) := by
  induction chunks generalizing buffer with
  | nil =>
    simp only [processChunksAux, List.flatten_nil, List.append_nil, streamLines,
      splitCR_of_not_mem '\n' buffer hb]
    by_cases h : buffer = [] <;> simp [h]
  | cons ch rest ih =>
    simp only [processChunksAux, List.flatten_cons]
    rw [ih _ (splitCR_not_mem_snd '\n' (buffer ++ ch))]
    simp only [streamLines]
    rw [← List.append_assoc buffer ch rest.flatten,
      splitCR_append '\n' (buffer ++ ch) rest.flatten, List.filter_append,
      List.append_assoc]

/-- Chunk-reassembly invariance: the emitted line sequence depends only on the
concatenated stream, not on how it was split into chunks. -/
theorem emittedLines_eq_streamLines (chunks : List (List Char)) :
    emittedLines chunks = streamLines chunks.flatten := by
  simpa using processChunksAux_eq [] chunks (by simp)

/-! ### Per-iteration tool execution lemmas -/

theorem execToolCalls_ids (env : ToolEnv) (calls : List ToolCall) :
    ∀ cache, (execToolCalls env cache calls).msgs.map (·.tool_call_id)
      = calls.map (·.id) := by
  induction calls with
  | nil => intro cache; simp [execToolCalls]
  | cons c rest ih =>
    intro cache
    rcases hargs : c.args with e | a
    · simp [execToolCalls, hargs, ih]
    · rcases henv : env c.name with _ | f
      · simp [execToolCalls, hargs, henv, ih]
      · rcases hc : cache.lookup (cacheKey c.name a) with _ | out
        · rcases hf : f (sortArgs a) with e' | out'
          · simp [execToolCalls, hargs, henv, hc, hf, ih]
          · simp [execToolCalls, hargs, henv, hc, hf, ih]
        · simp [execToolCalls, hargs, henv, hc, ih]

theorem execToolCalls_length (env : ToolEnv) (cache : Cache) (calls : List ToolCall) :
    (execToolCalls env cache calls).msgs.length = calls.length := by
  have h := congrArg List.length (execToolCalls_ids env calls cache)
  simpa using h

theorem execToolCalls_unavailable (env : ToolEnv) (calls : List ToolCall) :
    ∀ (cache : Cache) (i : Nat) (c : ToolCall) (a : ArgsObj),
      calls[i]? = some c → c.args = .ok a → env c.name = none →
      (execToolCalls env cache calls).msgs[i]? =
        some ⟨c.id, c.name, unavailableText c.name⟩ := by
  induction calls with
  | nil => intro cache i c a h1; simp at h1
  | cons c0 rest ih =>
    intro cache i c a h1 h2 h3
    cases i with
    | zero =>
      simp only [List.getElem?_cons_zero, Option.some.injEq] at h1
      subst h1
      simp [execToolCalls, h2, h3]
    | succ j =>
      simp only [List.getElem?_cons_succ] at h1
      rcases hargs : c0.args with e | a'
      · simp only [execToolCalls, hargs, List.getElem?_cons_succ]
        exact ih _ j c a h1 h2 h3
      · rcases henv : env c0.name with _ | f
        · simp only [execToolCalls, hargs, henv, List.getElem?_cons_succ]
          exact ih _ j c a h1 h2 h3
        · rcases hc : cache.lookup (cacheKey c0.name a') with _ | out
          · rcases hf : f (sortArgs a') with e' | out' <;>
              · simp only [execToolCalls, hargs, henv, hc, hf, List.getElem?_cons_succ]
                exact ih _ j c a h1 h2 h3
          · simp only [execToolCalls, hargs, henv, hc, List.getElem?_cons_succ]
            exact ih _ j c a h1 h2 h3

theorem cacheHit_le_one (cache : Cache) (k : String) : cacheHit cache k ≤ 1 := by
  unfold cacheHit; split <;> omega

theorem cacheHit_cons_le (cache : Cache) (k k' : String) (v : String) :
    cacheHit cache k ≤ cacheHit ((k', v) :: cache) k := by
  unfold cacheHit
  have hE : List.lookup k ((k', v) :: cache) =
      match k == k' with
      | true => some v
      | false => List.lookup k cache := rfl
  rw [hE]
  cases h : k == k'
  · exact Nat.le_refl _
  · show (if (List.lookup k cache).isSome = true then 1 else 0) ≤ (1 : Nat)
    split <;> omega

theorem cacheHit_cons_self (cache : Cache) (k : String) (v : String) :
    cacheHit ((k, v) :: cache) k = 1 := by
  simp [cacheHit, List.lookup]

theorem canonArgs_eq_of_sorted {a a' : ArgsObj} (h : sortArgs a' = sortArgs a) :
    canonArgs a' = canonArgs a := by
  unfold canonArgs; rw [h]

/-- Only successful invocations populate the cache; a key whose function
returns normally is invoked at most once more than it is already cached. -/
theorem execToolCalls_invoked_bound (env : ToolEnv) (n : String) (a : ArgsObj)
    (f : ToolFun) (out : String) (hf : env n = some f)
    (hok : f (sortArgs a) = .ok out) (calls : List ToolCall) :
    ∀ cache : Cache,
      (execToolCalls env cache calls).invoked.countP
          (fun p => decide (p = (n, sortArgs a)))
        + cacheHit cache (cacheKey n a)
      ≤ cacheHit (execToolCalls env cache calls).cache (cacheKey n a) := by
  induction calls with
  | nil => intro cache; simp [execToolCalls]
  | cons c rest ih =>
    intro cache
    rcases hargs : c.args with e | a'
    · simpa [execToolCalls, hargs] using ih cache
    · rcases henv : env c.name with _ | f'
      · simpa [execToolCalls, hargs, henv] using ih cache
      · rcases hc : cache.lookup (cacheKey c.name a') with _ | out'
        · rcases hfc : f' (sortArgs a') with e' | out''
          · -- invocation raised: nothing cached
            by_cases hp : ((c.name, sortArgs a') : String × ArgsObj) = (n, sortArgs a)
            · exfalso
              obtain ⟨hn, ha⟩ := Prod.mk.injEq .. ▸ hp
              rw [hn, hf] at henv
              cases henv
              rw [ha, hok] at hfc
              cases hfc
            · have := ih cache
              simp only [execToolCalls, hargs, henv, hc, hfc, List.countP_cons,
                decide_eq_true_eq, hp]
              simpa [hp] using this
          · -- invocation returned normally: result cached
            by_cases hp : ((c.name, sortArgs a') : String × ArgsObj) = (n, sortArgs a)
            · obtain ⟨hn, ha⟩ := Prod.mk.injEq .. ▸ hp
              have hkey : cacheKey c.name a' = cacheKey n a := by
                unfold cacheKey
                rw [hn, canonArgs_eq_of_sorted ha]
              have hmiss : cacheHit cache (cacheKey n a) = 0 := by
                rw [← hkey]; simp [cacheHit, hc]
              have h1 : cacheHit ((cacheKey c.name a', out'') :: cache)
                  (cacheKey n a) = 1 := by
                rw [hkey]; exact cacheHit_cons_self cache _ out''
              have hin := ih ((cacheKey c.name a', out'') :: cache)
              rw [h1] at hin
              have hle := cacheHit_le_one
                (execToolCalls env ((cacheKey c.name a', out'') :: cache) rest).cache
                (cacheKey n a)
              simp only [execToolCalls, hargs, henv, hc, hfc]
              simp only [List.countP_cons, hp, decide_eq_true_eq, if_true, hmiss]
              omega
            · have hmono := cacheHit_cons_le cache (cacheKey n a) (cacheKey c.name a') out''
              have hin := ih ((cacheKey c.name a', out'') :: cache)
              simp only [execToolCalls, hargs, henv, hc, hfc, List.countP_cons,
                decide_eq_true_eq, hp]
              simpa [hp] using le_trans (Nat.add_le_add_left hmono _) hin
        · simpa [execToolCalls, hargs, henv, hc] using ih cache

/-- The per-execution cache persists across loop iterations, so the bound
extends to the whole run. -/
theorem runLoop_invoked_bound (cfg : LoopCfg) (n : String) (a : ArgsObj)
    (f : ToolFun) (out : String) (hf : cfg.env n = some f)
    (hok : f (sortArgs a) = .ok out) :
    ∀ (fuel : Nat) (rm : AssistantMsg) (turns : Nat) (msgs : List Msg)
      (cache : Cache) (succ : List (String × String)) (req : Bool),
      (runLoop cfg fuel rm turns msgs cache succ req).invoked.countP
          (fun p => decide (p = (n, sortArgs a)))
        + cacheHit cache (cacheKey n a) ≤ 1 := by
  intro fuel
  induction fuel with
  | zero =>
    intro rm turns msgs cache succ req
    have := cacheHit_le_one cache (cacheKey n a)
    cases hL : rm.tool_calls.isEmpty <;> simp [runLoop, hL] <;> omega
  | succ fuel' ih =>
    intro rm turns msgs cache succ req
    cases hL : rm.tool_calls.isEmpty
    · have hex := execToolCalls_invoked_bound cfg.env n a f out hf hok
        rm.tool_calls cache
      have hexle := cacheHit_le_one
        (execToolCalls cfg.env cache rm.tool_calls).cache (cacheKey n a)
      rcases hsvc : cfg.service turns with e | e | rm2 <;>
        simp only [runLoop, hL, Bool.false_eq_true, if_false, hsvc]
      · omega
      · omega
      · have hrec := ih rm2 (turns + 1)
          ((if decide (cfg.deadline ≤ cfg.times turns) && !req then
              (msgs ++ [Msg.assistant rm]) ++
                (execToolCalls cfg.env cache rm.tool_calls).msgs.map Msg.tool ++
                [Msg.chat "system" (finalizeSystemText cfg.softTimeoutMs)]
            else
              (msgs ++ [Msg.assistant rm]) ++
                (execToolCalls cfg.env cache rm.tool_calls).msgs.map Msg.tool))
          (execToolCalls cfg.env cache rm.tool_calls).cache
          (succ ++ (execToolCalls cfg.env cache rm.tool_calls).newSucc)
          (req || decide (cfg.deadline ≤ cfg.times turns))
        simp only [List.countP_append]
        omega
    · have := cacheHit_le_one cache (cacheKey n a)
      simp [runLoop, hL]
      omega

/-! ### Loop trace lemmas -/

/-- C1: in every tool-executing iteration the loop appends exactly one
tool-role result message per `tool_call` of the assistant message — the
malformed-argument, raising-tool and unavailable-tool cases included — with
`tool_call_id`s matching the `tool_call` ids pairwise in the listed order;
and the message list sent to the next completion request is the previous
list followed by the assistant message, those tool results, and at most the
injected finalize system message. -/
theorem runLoop_trace_shape (cfg : LoopCfg) :
    ∀ (fuel : Nat) (rm : AssistantMsg) (turns : Nat) (msgs : List Msg)
      (cache : Cache) (succ : List (String × String)) (req : Bool),
      ∀ rec ∈ (runLoop cfg fuel rm turns msgs cache succ req).trace,
        rec.toolMsgs.map (·.tool_call_id) = rec.assistantMsg.tool_calls.map (·.id) ∧
        rec.sentMessages =
          rec.msgsBefore ++ [Msg.assistant rec.assistantMsg] ++
            rec.toolMsgs.map Msg.tool ++
            (if rec.injectedNow then
              [Msg.chat "system" (finalizeSystemText cfg.softTimeoutMs)]
            else []) := by
  intro fuel
  induction fuel with
  | zero =>
    intro rm turns msgs cache succ req rec hrec
    cases hL : rm.tool_calls.isEmpty <;> simp [runLoop, hL] at hrec
  | succ fuel' ih =>
    intro rm turns msgs cache succ req rec hrec
    cases hL : rm.tool_calls.isEmpty
    · rcases hsvc : cfg.service turns with e | e | rm2 <;>
        simp only [runLoop, hL, Bool.false_eq_true, if_false, hsvc,
          List.mem_singleton, List.mem_cons] at hrec
      · rcases hrec with rfl | h0
        · refine ⟨execToolCalls_ids cfg.env rm.tool_calls cache, ?_⟩
          cases hB : decide (cfg.deadline ≤ cfg.times turns) && !req <;>
            simp [hB, List.append_assoc]
        · exact absurd h0 (List.not_mem_nil rec)
      · rcases hrec with rfl | h0
        · refine ⟨execToolCalls_ids cfg.env rm.tool_calls cache, ?_⟩
          cases hB : decide (cfg.deadline ≤ cfg.times turns) && !req <;>
            simp [hB, List.append_assoc]
        · exact absurd h0 (List.not_mem_nil rec)
      · rcases hrec with rfl | hrec
        · refine ⟨execToolCalls_ids cfg.env rm.tool_calls cache, ?_⟩
          cases hB : decide (cfg.deadline ≤ cfg.times turns) && !req <;>
            simp [hB, List.append_assoc]
        · exact ih rm2 (turns + 1) _ _ _ _ rec hrec
    · simp [runLoop, hL] at hrec

theorem runLoop_trace_length (cfg : LoopCfg) :
    ∀ (fuel : Nat) (rm : AssistantMsg) (turns : Nat) (msgs : List Msg)
      (cache : Cache) (succ : List (String × String)) (req : Bool),
      (runLoop cfg fuel rm turns msgs cache succ req).trace.length ≤ fuel := by
  intro fuel
  induction fuel with
  | zero =>
    intro rm turns msgs cache succ req
    cases hL : rm.tool_calls.isEmpty <;> simp [runLoop, hL]
  | succ fuel' ih =>
    intro rm turns msgs cache succ req
    cases hL : rm.tool_calls.isEmpty
    · rcases hsvc : cfg.service turns with e | e | rm2 <;>
        simp only [runLoop, hL, Bool.false_eq_true, if_false, hsvc,
          List.length_cons, List.length_nil]
      · omega
      · omega
      · exact Nat.succ_le_succ (ih rm2 (turns + 1) _ _ _ _)
    · simp [runLoop, hL]

theorem runLoop_limit_outcome (cfg : LoopCfg)
    (hs : ∀ k, ∃ m, cfg.service k = .ok m ∧ m.tool_calls ≠ []) :
    ∀ (fuel : Nat) (rm : AssistantMsg) (turns : Nat) (msgs : List Msg)
      (cache : Cache) (succ : List (String × String)) (req : Bool),
      rm.tool_calls ≠ [] →
      (runLoop cfg fuel rm turns msgs cache succ req).outcome = some limitMessage := by
  intro fuel
  induction fuel with
  | zero =>
    intro rm turns msgs cache succ req h
    have hL : rm.tool_calls.isEmpty = false := by
      cases hE : rm.tool_calls.isEmpty
      · rfl
      · exact absurd (List.isEmpty_iff.mp hE) h
    simp [runLoop, hL]
  | succ fuel' ih =>
    intro rm turns msgs cache succ req h
    have hL : rm.tool_calls.isEmpty = false := by
      cases hE : rm.tool_calls.isEmpty
      · rfl
      · exact absurd (List.isEmpty_iff.mp hE) h
    obtain ⟨m2, hm2, hm2ne⟩ := hs turns
    simp only [runLoop, hL, Bool.false_eq_true, if_false, hm2]
    exact ih m2 (turns + 1) _ _ _ _ hm2ne

/-! ### Soft-deadline lemmas -/

theorem runLoop_injected_le (cfg : LoopCfg) :
    ∀ (fuel : Nat) (rm : AssistantMsg) (turns : Nat) (msgs : List Msg)
      (cache : Cache) (succ : List (String × String)) (req : Bool),
      (runLoop cfg fuel rm turns msgs cache succ req).trace.countP (·.injectedNow)
        ≤ if req then 0 else 1 := by
  intro fuel
  induction fuel with
  | zero =>
    intro rm turns msgs cache succ req
    cases hL : rm.tool_calls.isEmpty <;> simp [runLoop, hL]
  | succ fuel' ih =>
    intro rm turns msgs cache succ req
    cases hL : rm.tool_calls.isEmpty
    · cases req <;>
        rcases hsvc : cfg.service turns with e | e | rm2 <;>
          simp only [runLoop, hL, Bool.false_eq_true, if_false, hsvc,
            List.countP_cons, List.countP_nil]
      · cases hd : decide (cfg.deadline ≤ cfg.times turns) <;> simp [hd]
      · cases hd : decide (cfg.deadline ≤ cfg.times turns) <;> simp [hd]
      · cases hd : decide (cfg.deadline ≤ cfg.times turns)
        · simpa using ih rm2 (turns + 1) _ _ _ false
        · simpa using ih rm2 (turns + 1) _ _ _ true
      · simp
      · simp
      · simpa using ih rm2 (turns + 1) _ _ _ true
    · simp [runLoop, hL]

theorem runLoop_choice_none (cfg : LoopCfg) (hT : cfg.hasTools = true) :
    ∀ (fuel : Nat) (rm : AssistantMsg) (turns : Nat) (msgs : List Msg)
      (cache : Cache) (succ : List (String × String)) (req : Bool),
      ∀ rec ∈ (runLoop cfg fuel rm turns msgs cache succ req).trace,
        (req = true ∨ cfg.deadline ≤ rec.time) →
        rec.toolChoiceSent = some "none" := by
  intro fuel
  induction fuel with
  | zero =>
    intro rm turns msgs cache succ req rec hrec
    cases hL : rm.tool_calls.isEmpty <;> simp [runLoop, hL] at hrec
  | succ fuel' ih =>
    intro rm turns msgs cache succ req rec hrec hcond
    cases hL : rm.tool_calls.isEmpty
    · rcases hsvc : cfg.service turns with e | e | rm2 <;>
        simp only [runLoop, hL, Bool.false_eq_true, if_false, hsvc,
          List.mem_singleton, List.mem_cons] at hrec
      · rcases hrec with rfl | h0
        · have hreq : (req || decide (cfg.deadline ≤ cfg.times turns)) = true := by
            rcases hcond with h | h
            · simp [h]
            · simp only [TurnRecord.time] at h
              simp [h]
          simp [hT, hreq]
        · exact absurd h0 (List.not_mem_nil rec)
      · rcases hrec with rfl | h0
        · have hreq : (req || decide (cfg.deadline ≤ cfg.times turns)) = true := by
            rcases hcond with h | h
            · simp [h]
            · simp only [TurnRecord.time] at h
              simp [h]
          simp [hT, hreq]
        · exact absurd h0 (List.not_mem_nil rec)
      · rcases hrec with rfl | hrec
        · have hreq : (req || decide (cfg.deadline ≤ cfg.times turns)) = true := by
            rcases hcond with h | h
            · simp [h]
            · simp only [TurnRecord.time] at h
              simp [h]
          simp [hT, hreq]
        · rcases hcond with h | h
          · exact ih rm2 (turns + 1) _ _ _ _ rec hrec (Or.inl (by simp [h]))
          · exact ih rm2 (turns + 1) _ _ _ _ rec hrec (Or.inr h)
    · simp [runLoop, hL] at hrec

theorem runLoop_injected_reached (cfg : LoopCfg) :
    ∀ (fuel : Nat) (rm : AssistantMsg) (turns : Nat) (msgs : List Msg)
      (cache : Cache) (succ : List (String × String)),
      (∃ rec ∈ (runLoop cfg fuel rm turns msgs cache succ false).trace,
        cfg.deadline ≤ rec.time) →
      1 ≤ (runLoop cfg fuel rm turns msgs cache succ false).trace.countP
        (·.injectedNow) := by
  intro fuel
  induction fuel with
  | zero =>
    intro rm turns msgs cache succ h
    rcases h with ⟨rec, hrec, _⟩
    cases hL : rm.tool_calls.isEmpty <;> simp [runLoop, hL] at hrec
  | succ fuel' ih =>
    intro rm turns msgs cache succ h
    cases hL : rm.tool_calls.isEmpty
    · rcases hsvc : cfg.service turns with e | e | rm2 <;>
        simp only [runLoop, hL, Bool.false_eq_true, if_false, hsvc,
          List.countP_cons, List.countP_nil] at h ⊢ <;>
        rcases h with ⟨rec, hrec, hdl⟩
      · simp only [List.mem_singleton] at hrec
        subst hrec
        simp only [TurnRecord.time] at hdl
        simp [hdl]
      · simp only [List.mem_singleton] at hrec
        subst hrec
        simp only [TurnRecord.time] at hdl
        simp [hdl]
      · simp only [List.mem_cons] at hrec
        cases hd : decide (cfg.deadline ≤ cfg.times turns)
        · rcases hrec with rfl | hrec
          · simp only [TurnRecord.time] at hdl
            simp [hdl] at hd
          · simp only [hd, Bool.false_or, Bool.or_false, Bool.false_and, Bool.and_false,
              Bool.and_true, Bool.not_false, Bool.false_eq_true, if_false,
              Nat.add_zero] at hrec ⊢
            exact ih rm2 (turns + 1) _ _ _ ⟨rec, hrec, hdl⟩
        · simp [hd]
    · rcases h with ⟨rec, hrec, _⟩
      simp [runLoop, hL] at hrec

theorem isInfix_extend_right (u v w : List Char) (h : u <:+: v) : u <:+: v ++ w := by
  obtain ⟨s, t, hst⟩ := h
  refine ⟨s, t ++ w, ?_⟩
  rw [← hst]
  simp [List.append_assoc]

theorem isInfix_extend_left (u v w : List Char) (h : u <:+: v) : u <:+: w ++ v := by
  obtain ⟨s, t, hst⟩ := h
  refine ⟨w ++ s, t, ?_⟩
  rw [← hst]
  simp [List.append_assoc]

theorem head_append (l1 l2 : List Char) (c : Char) (h : l1.head? = some c) :
    (l1 ++ l2).head? = some c := by
  cases l1 with
  | nil => exact Option.noConfusion h
  | cons a t => exact h

theorem ne_of_head_ne (a b : String) (x y : Char)
    (ha : a.data.head? = some x) (hb : b.data.head? = some y) (hxy : x ≠ y) : a ≠ b := by
  intro h
  rw [h, hb] at ha
  exact hxy (Option.some.inj ha).symm

theorem joinLines_cons_data (x : String) (ls : List String) :
    ∃ r, (joinLines (x :: ls)).data = x.data ++ r := by
  cases ls with
  | nil => exact ⟨[], by simp [joinLines]⟩
  | cons y rest =>
    exact ⟨'\n' :: (joinLines (y :: rest)).data, by simp [joinLines, data_append]⟩

theorem joinLines_mem_isInfix : ∀ (ls : List String) (l : String),
    l ∈ ls → l.data <:+: (joinLines ls).data
  | [], l, h => absurd h (List.not_mem_nil l)
  | [x], l, h => by
    rcases List.mem_singleton.mp h with rfl
    exact List.infix_rfl
  | x :: y :: rest, l, h => by
    have hdata : (joinLines (x :: y :: rest)).data
        = (x.data ++ ['\n']) ++ (joinLines (y :: rest)).data := rfl
    rcases List.mem_cons.mp h with rfl | h2
    · rw [hdata]
      exact isInfix_extend_right _ _ _ ⟨[], ['\n'], rfl⟩
    · rw [hdata]
      exact isInfix_extend_left _ _ _ (joinLines_mem_isInfix (y :: rest) l h2)

theorem summaryItemLines_mem_isInfix : ∀ (rs : List (String × String)) (i : Nat)
    (p : String × String), p ∈ rs →
    ∃ ln ∈ summaryItemLines i rs, (shortText 600 p.2).data <:+: ln.data
  | [], _, p, h => absurd h (List.not_mem_nil p)
  | (n, out) :: rest, i, p, h => by
    rcases List.mem_cons.mp h with rfl | h2
    · refine ⟨toString i ++ ". " ++ (if n = "" then "tool" else n) ++ ": "
          ++ shortText 600 out, ?_, ?_⟩
      · simp [summaryItemLines]
      · exact ⟨(toString i ++ ". " ++ (if n = "" then "tool" else n) ++ ": ").data, [], by
          simp [data_append]⟩
    · obtain ⟨ln, hm, hi⟩ := summaryItemLines_mem_isInfix rest (i + 1) p h2
      exact ⟨ln, by simp [summaryItemLines, hm], hi⟩

theorem summarize_eq (rs : List (String × String)) (hne : rs ≠ []) :
    summarizeToolResults rs = some (summaryText rs) := by
  simp [summarizeToolResults, summaryText, hne]

theorem summaryText_header (rs : List (String × String)) :
    ∃ r, (summaryText rs).data = summaryHeader.data ++ r :=
  joinLines_cons_data summaryHeader _

theorem summaryText_head (rs : List (String × String)) :
    (summaryText rs).data.head? = some 'I' := by
  obtain ⟨r, hr⟩ := summaryText_header rs
  rw [hr]
  exact head_append _ _ _ rfl

theorem summaryText_ne_empty (rs : List (String × String)) : summaryText rs ≠ "" := by
  intro h
  have h1 := summaryText_head rs
  rw [h] at h1
  exact Option.noConfusion h1

theorem summaryText_take5 (rs : List (String × String)) (p : String × String)
    (hp : p ∈ rs.take 5) :
    (shortText 600 p.2).data <:+: (summaryText rs).data := by
  obtain ⟨ln, hm, hi⟩ := summaryItemLines_mem_isInfix (rs.take 5) 1 p hp
  refine hi.trans (joinLines_mem_isInfix _ ln ?_)
  exact List.mem_cons_of_mem _ (List.mem_append_left _ hm)

theorem summaryText_overflow (rs : List (String × String)) (h5 : 5 < rs.length) :
    ("...and " ++ toString (rs.length - 5) ++ " more tool result(s).").data
      <:+: (summaryText rs).data := by
  unfold summaryText
  rw [if_pos h5]
  exact joinLines_mem_isInfix _ _
    (List.mem_cons_of_mem _ (List.mem_append_right _ (List.mem_singleton.mpr rfl)))

theorem errorFallbackText_data (S e : String) :
    (errorFallbackText S e).data
      = S.data
        ++ ("\n\nI’m returning the best results gathered so far because the follow-up model call failed: ").data
        ++ e.data := rfl

theorem parseFallbackText_data (S e : String) :
    (parseFallbackText S e).data
      = S.data
        ++ ("\n\nI’m returning the best results gathered so far because a follow-up model response could not be parsed (").data
        ++ e.data ++ (").").data := rfl

/-- C3: whenever the follow-up completion call fails — whether with an error
payload or an unparseable response — after at least one tool call has
succeeded in the current user-message execution (in this iteration or an
earlier one), the final text is the synthesized fallback built from the
summary of all accumulated successful results: each of the first five
truncated outputs occurs in it verbatim, results beyond the fifth are
acknowledged by an overflow notice, and the text is never either bare
proxy-error string. -/
theorem fallback_references_all_tool_outputs
    (cfg : LoopCfg) (fuel turns : Nat) (rm : AssistantMsg) (msgs : List Msg)
    (cache : Cache) (succ : List (String × String)) (req : Bool) (e : String)
    (hne : rm.tool_calls.isEmpty = false)
    (hfail : cfg.service turns = .errorPayload e ∨ cfg.service turns = .parseError e)
    (hsome : succ ++ (execToolCalls cfg.env cache rm.tool_calls).newSucc ≠ []) :
    ∃ t, (runLoop cfg (fuel + 1) rm turns msgs cache succ req).outcome = some t
      ∧ (cfg.service turns = .errorPayload e →
          t = errorFallbackText
            (summaryText (succ ++ (execToolCalls cfg.env cache rm.tool_calls).newSucc)) e)
      ∧ (cfg.service turns = .parseError e →
          t = parseFallbackText
            (summaryText (succ ++ (execToolCalls cfg.env cache rm.tool_calls).newSucc)) e)
      ∧ (∀ p ∈ (succ ++ (execToolCalls cfg.env cache rm.tool_calls).newSucc).take 5,
          (shortText 600 p.2).data <:+: t.data)
      ∧ (5 < (succ ++ (execToolCalls cfg.env cache rm.tool_calls).newSucc).length →
          ("...and "
            ++ toString
              ((succ ++ (execToolCalls cfg.env cache rm.tool_calls).newSucc).length - 5)
            ++ " more tool result(s).").data <:+: t.data)
      ∧ t ≠ proxyErrorText e ∧ t ≠ proxyParseErrorText e := by
  have hS := summarize_eq (succ ++ (execToolCalls cfg.env cache rm.tool_calls).newSucc) hsome
  have hSne := summaryText_ne_empty (succ ++ (execToolCalls cfg.env cache rm.tool_calls).newSucc)
  have hpos : 0 < (succ ++ (execToolCalls cfg.env cache rm.tool_calls).newSucc).length := by
    cases hc : succ ++ (execToolCalls cfg.env cache rm.tool_calls).newSucc with
    | nil => exact absurd hc hsome
    | cons a l => simp
  have hheadS := summaryText_head (succ ++ (execToolCalls cfg.env cache rm.tool_calls).newSucc)
  rcases hfail with herr | hparse
  · refine ⟨errorFallbackText
        (summaryText (succ ++ (execToolCalls cfg.env cache rm.tool_calls).newSucc)) e,
      ?_, fun _ => rfl, ?_, ?_, ?_, ?_, ?_⟩
    · simp only [runLoop, hne, Bool.false_eq_true, if_false, herr]
      simp [followupFailureText, hpos, hS, hSne]
      intro h1 h2
      exact absurd (by simp [h1, h2]) hsome
    · intro hp
      rw [herr] at hp
      exact ProxyResult.noConfusion hp
    · intro p hp
      rw [errorFallbackText_data]
      exact isInfix_extend_right _ _ _
        (isInfix_extend_right _ _ _ (summaryText_take5 _ p hp))
    · intro h5
      rw [errorFallbackText_data]
      exact isInfix_extend_right _ _ _
        (isInfix_extend_right _ _ _ (summaryText_overflow _ h5))
    · refine ne_of_head_ne _ _ 'I' 'E' ?_ rfl (by decide)
      rw [errorFallbackText_data]
      exact head_append _ _ _ (head_append _ _ _ hheadS)
    · refine ne_of_head_ne _ _ 'I' 'E' ?_ rfl (by decide)
      rw [errorFallbackText_data]
      exact head_append _ _ _ (head_append _ _ _ hheadS)
  · refine ⟨parseFallbackText
        (summaryText (succ ++ (execToolCalls cfg.env cache rm.tool_calls).newSucc)) e,
      ?_, ?_, fun _ => rfl, ?_, ?_, ?_, ?_⟩
    · simp only [runLoop, hne, Bool.false_eq_true, if_false, hparse]
      simp [followupFailureText, hpos, hS, hSne]
      intro h1 h2
      exact absurd (by simp [h1, h2]) hsome
    · intro hp
      rw [hparse] at hp
      exact ProxyResult.noConfusion hp
    · intro p hp
      rw [parseFallbackText_data]
      exact isInfix_extend_right _ _ _ (isInfix_extend_right _ _ _
        (isInfix_extend_right _ _ _ (summaryText_take5 _ p hp)))
    · intro h5
      rw [parseFallbackText_data]
      exact isInfix_extend_right _ _ _ (isInfix_extend_right _ _ _
        (isInfix_extend_right _ _ _ (summaryText_overflow _ h5)))
    · refine ne_of_head_ne _ _ 'I' 'E' ?_ rfl (by decide)
      rw [parseFallbackText_data]
      exact head_append _ _ _ (head_append _ _ _ (head_append _ _ _ hheadS))
    · refine ne_of_head_ne _ _ 'I' 'E' ?_ rfl (by decide)
      rw [parseFallbackText_data]
      exact head_append _ _ _ (head_append _ _ _ (head_append _ _ _ hheadS))

/-- C3 witness: three concrete successful tool calls followed by a concrete
error payload on the follow-up call produce the summary fallback, each
truncated output occurring in the final text, which is not a bare proxy
error of either kind. -/
theorem fallback_references_all_tool_outputs_witness :
    ∃ t,
      (runLoop ⟨fun s => some (fun _ => .ok ("res-" ++ s)), true, 50, 90000, 1000,
          fun _ => .errorPayload "boom", fun _ => 0⟩ 50
        ⟨none, [⟨"i1", "t1", .ok []⟩, ⟨"i2", "t2", .ok []⟩, ⟨"i3", "t3", .ok []⟩]⟩
        0 [] [] [] false).outcome = some t
      ∧ (ProxyResult.errorPayload "boom" = ProxyResult.errorPayload "boom" →
          t = errorFallbackText
            (summaryText [("t1", "res-t1"), ("t2", "res-t2"), ("t3", "res-t3")]) "boom")
      ∧ (ProxyResult.errorPayload "boom" = ProxyResult.parseError "boom" →
          t = parseFallbackText
            (summaryText [("t1", "res-t1"), ("t2", "res-t2"), ("t3", "res-t3")]) "boom")
      ∧ (∀ p ∈ ([("t1", "res-t1"), ("t2", "res-t2"), ("t3", "res-t3")]
            : List (String × String)).take 5,
          (shortText 600 p.2).data <:+: t.data)
      ∧ (5 < ([("t1", "res-t1"), ("t2", "res-t2"), ("t3", "res-t3")]
            : List (String × String)).length →
          ("...and "
            ++ toString (([("t1", "res-t1"), ("t2", "res-t2"), ("t3", "res-t3")]
                : List (String × String)).length - 5)
            ++ " more tool result(s).").data <:+: t.data)
      ∧ t ≠ proxyErrorText "boom" ∧ t ≠ proxyParseErrorText "boom" :=
  fallback_references_all_tool_outputs
    ⟨fun s => some (fun _ => .ok ("res-" ++ s)), true, 50, 90000, 1000,
      fun _ => .errorPayload "boom", fun _ => 0⟩ 49 0
    ⟨none, [⟨"i1", "t1", .ok []⟩, ⟨"i2", "t2", .ok []⟩, ⟨"i3", "t3", .ok []⟩]⟩
    [] [] [] false "boom" rfl (Or.inl rfl) (by decide)

theorem completionAttempts_succ (oracle : Nat → AttemptResult) (fuel attempt : Nat)
    (result : Option Payload) (cerr : Option String) (calls : List AttemptRecord) :
    completionAttempts oracle (fuel + 1) attempt result cerr calls =
      match oracle attempt with
      | .value p =>
        if isTimeoutPayload p && decide (attempt < 3) then
          completionAttempts oracle fuel (attempt + 1) (some p)
            (some timeoutRetryNote)
            (calls ++ [⟨decide (1 < attempt), decide (1 < attempt)⟩])
        else (some p, none, calls ++ [⟨decide (1 < attempt), decide (1 < attempt)⟩])
      | .thrown m =>
        if decide (attempt < 3) then
          completionAttempts oracle fuel (attempt + 1) result (some m)
            (calls ++ [⟨decide (1 < attempt), decide (1 < attempt)⟩])
        else (result, some m,
          calls ++ [⟨decide (1 < attempt), decide (1 < attempt)⟩]) := rfl

theorem completionAttempts_value_timeout (oracle : Nat → AttemptResult)
    (fuel attempt : Nat) (result : Option Payload) (cerr : Option String)
    (calls : List AttemptRecord) (p : Payload) (hp : oracle attempt = .value p)
    (ht : isTimeoutPayload p = true) (hlt : attempt < 3) :
    completionAttempts oracle (fuel + 1) attempt result cerr calls =
      completionAttempts oracle fuel (attempt + 1) (some p) (some timeoutRetryNote)
        (calls ++ [⟨decide (1 < attempt), decide (1 < attempt)⟩]) := by
  rw [completionAttempts_succ, hp]
  simp [ht, hlt]

theorem completionAttempts_length_le (oracle : Nat → AttemptResult) :
    ∀ (fuel attempt : Nat) (result : Option Payload) (cerr : Option String)
      (calls : List AttemptRecord),
      (completionAttempts oracle fuel attempt result cerr calls).2.2.length
        ≤ calls.length + fuel := by
  intro fuel
  induction fuel with
  | zero => intro attempt result cerr calls; simp [completionAttempts]
  | succ fuel' ih =>
    intro attempt result cerr calls
    rcases ho : oracle attempt with p | m <;>
      simp only [completionAttempts, ho]
    · split
      · exact le_trans (ih _ _ _ _) (by simp; omega)
      · simp
    · split
      · exact le_trans (ih _ _ _ _) (by simp; omega)
      · simp

theorem completionAttempts_calls_decomp (oracle : Nat → AttemptResult) :
    ∀ (fuel attempt : Nat) (result : Option Payload) (cerr : Option String)
      (calls : List AttemptRecord),
      ∃ rest, (completionAttempts oracle fuel attempt result cerr calls).2.2
        = calls ++ rest
        ∧ (1 ≤ fuel →
            rest.head? = some ⟨decide (1 < attempt), decide (1 < attempt)⟩) := by
  intro fuel
  induction fuel with
  | zero =>
    intro attempt result cerr calls
    exact ⟨[], by simp [completionAttempts], by omega⟩
  | succ fuel' ih =>
    intro attempt result cerr calls
    rcases ho : oracle attempt with p | m <;>
      simp only [completionAttempts, ho]
    · split
      · obtain ⟨rest, hrest, _⟩ := ih (attempt + 1) (some p) (some timeoutRetryNote)
          (calls ++ [⟨decide (1 < attempt), decide (1 < attempt)⟩])
        exact ⟨⟨decide (1 < attempt), decide (1 < attempt)⟩ :: rest,
          by simpa [List.append_assoc] using hrest, fun _ => rfl⟩
      · exact ⟨[⟨decide (1 < attempt), decide (1 < attempt)⟩], by simp, fun _ => rfl⟩
    · split
      · obtain ⟨rest, hrest, _⟩ := ih (attempt + 1) result (some m)
          (calls ++ [⟨decide (1 < attempt), decide (1 < attempt)⟩])
        exact ⟨⟨decide (1 < attempt), decide (1 < attempt)⟩ :: rest,
          by simpa [List.append_assoc] using hrest, fun _ => rfl⟩
      · exact ⟨[⟨decide (1 < attempt), decide (1 < attempt)⟩], by simp, fun _ => rfl⟩

/-- C4 counterexample: a payload carrying a non-timeout error string is
returned after a single `chat_completion` call — the bridge does not retry
it, contradicting the claim that any error-string payload is retried with
backoff before surfacing. -/
theorem error_payload_not_retried_cex :
    ¬ (∀ (oracle : Nat → AttemptResult) (p : Payload),
        oracle 1 = .value p →
        (hasErrorString p || isTimeoutPayload p) = true →
        2 ≤ (completionCallRecords oracle).length) := by
  intro h
  have := h (fun _ => .value (.obj (some "boom") none)) (.obj (some "boom") none)
    rfl (by decide)
  exact absurd this (by decide)

/-- C4 (amended): the bridge retries only timeout-flavoured payloads (and
thrown errors): at most 3 attempts are made; a timeout payload on the first
attempt triggers a second attempt that re-resolves the proxy service with
the prefer-alternate flag; a non-timeout payload — an error payload
included — is returned after exactly one attempt; and if every attempt
yields a timeout payload the bridge surfaces `'Request timed out.'` after
all 3 attempts. -/
theorem bridge_retry_policy (oracle : Nat → AttemptResult) :
    (completionCallRecords oracle).length ≤ 3
    ∧ (∀ p, oracle 1 = .value p → isTimeoutPayload p = true →
        2 ≤ (completionCallRecords oracle).length
        ∧ (completionCallRecords oracle)[1]? = some ⟨true, true⟩)
    ∧ (∀ p, oracle 1 = .value p → isTimeoutPayload p = false →
        hyphaChatCompletionResult oracle = .ok p
        ∧ (completionCallRecords oracle).length = 1)
    ∧ ((∀ k, 1 ≤ k → k ≤ 3 → ∃ p, oracle k = .value p ∧ isTimeoutPayload p = true) →
        hyphaChatCompletionResult oracle = .error "Request timed out."
        ∧ (completionCallRecords oracle).length = 3) := by
  refine ⟨?_, ?_, ?_, ?_⟩
  · simpa using completionAttempts_length_le oracle 3 1 none none []
  · intro p h1 ht
    unfold completionCallRecords
    rw [show (3 : Nat) = 2 + 1 from rfl,
      completionAttempts_value_timeout oracle 2 1 none none [] p h1 ht (by omega)]
    obtain ⟨rest, hrest, hhead⟩ := completionAttempts_calls_decomp oracle 2 (1 + 1)
      (some p) (some timeoutRetryNote)
      ([] ++ [⟨decide (1 < 1), decide (1 < 1)⟩])
    rw [hrest]
    have h2 := hhead (by omega)
    cases rest with
    | nil => simp at h2
    | cons r rs =>
      simp only [List.head?_cons, Option.some.injEq] at h2
      constructor
      · simp
      · rw [h2]
        simp
  · intro p h1 ht
    constructor
    · unfold hyphaChatCompletionResult
      simp [completionAttempts, h1, ht]
    · unfold completionCallRecords
      simp [completionAttempts, h1, ht]
  · intro hall
    obtain ⟨p1, hp1, ht1⟩ := hall 1 (by omega) (by omega)
    obtain ⟨p2, hp2, ht2⟩ := hall 2 (by omega) (by omega)
    obtain ⟨p3, hp3, ht3⟩ := hall 3 (by omega) (by omega)
    constructor
    · unfold hyphaChatCompletionResult
      simp [completionAttempts, hp1, hp2, hp3, ht1, ht2, ht3]
    · unfold completionCallRecords
      simp [completionAttempts, hp1, hp2, hp3, ht1, ht2, ht3]

/-- C4 witness: a concrete timeout payload is retried with the alternate
service preferred on the second attempt, and a concrete plain payload is
returned after a single call. -/
theorem bridge_retry_policy_witness :
    (2 ≤ (completionCallRecords
        (fun k => if k = 1 then .value (.obj (some "request timed out") none)
          else .value (.str "fine"))).length
      ∧ (completionCallRecords
        (fun k => if k = 1 then .value (.obj (some "request timed out") none)
          else .value (.str "fine")))[1]? = some ⟨true, true⟩)
    ∧ (hyphaChatCompletionResult (fun _ => .value (.str "fine"))
        = .ok (.str "fine")
      ∧ (completionCallRecords (fun _ => .value (.str "fine"))).length = 1) :=
  ⟨(bridge_retry_policy _).2.1 (.obj (some "request timed out") none) rfl (by decide),
    (bridge_retry_policy _).2.2.1 (.str "fine") rfl (by decide)⟩

/-! ### Remaining loop claim theorems -/

/-- C1 witness: a concrete turn with unavailable tool calls yields tool
results whose ids match the tool_calls pairwise. -/
theorem runLoop_trace_shape_witness :
    (runLoop ⟨fun _ => none, true, 50, 90000, 1000, fun _ => .errorPayload "x",
        fun _ => 0⟩ 50
      ⟨none, [⟨"id1", "t1", .ok []⟩, ⟨"id2", "t2", .ok []⟩]⟩ 0 [] [] [] false).trace.map
        (fun rec => rec.toolMsgs.map (·.tool_call_id))
    = (runLoop ⟨fun _ => none, true, 50, 90000, 1000, fun _ => .errorPayload "x",
        fun _ => 0⟩ 50
      ⟨none, [⟨"id1", "t1", .ok []⟩, ⟨"id2", "t2", .ok []⟩]⟩ 0 [] [] [] false).trace.map
        (fun rec => rec.assistantMsg.tool_calls.map (·.id)) :=
  List.map_congr_left fun rec hrec =>
    (runLoop_trace_shape ⟨fun _ => none, true, 50, 90000, 1000,
      fun _ => .errorPayload "x", fun _ => 0⟩ 50
      ⟨none, [⟨"id1", "t1", .ok []⟩, ⟨"id2", "t2", .ok []⟩]⟩ 0 [] [] [] false
      rec hrec).1

/-- C2: with `max_turns = AGENT_TOOL_EXECUTION_LIMIT = 50` the loop executes
at most 50 tool-executing turns, and a service that keeps requesting tool
calls drives it into the explicit limit-reached final message rather than an
unbounded loop. -/
theorem loop_turn_bound (cfg : LoopCfg) (history : List Msg) (first : ProxyResult)
    (hmax : cfg.maxTurns = AGENT_TOOL_EXECUTION_LIMIT) :
    (chatWrapper cfg history first).trace.length ≤ AGENT_TOOL_EXECUTION_LIMIT
    ∧ ((∀ k, ∃ m, cfg.service k = .ok m ∧ m.tool_calls ≠ []) →
        ∀ m0, first = .ok m0 → m0.tool_calls ≠ [] →
        (chatWrapper cfg history first).outcome = some limitMessage) := by
  constructor
  · cases first with
    | parseError e => simp [chatWrapper]
    | errorPayload e => simp [chatWrapper]
    | ok rm =>
      show (runLoop cfg cfg.maxTurns rm 0 history [] [] false).trace.length ≤ _
      rw [hmax]
      exact runLoop_trace_length cfg AGENT_TOOL_EXECUTION_LIMIT rm 0 history [] [] false
  · intro hs m0 hfirst h0
    subst hfirst
    exact runLoop_limit_outcome cfg hs cfg.maxTurns m0 0 history [] [] false h0

/-- C2 witness: a service that always requests an unavailable tool makes the
concrete run finish with the limit-reached message. -/
theorem loop_turn_bound_witness :
    (chatWrapper ⟨fun _ => none, true, AGENT_TOOL_EXECUTION_LIMIT,
        AGENT_ITERATION_SOFT_TIMEOUT_MS, 1000000,
        fun _ => .ok ⟨none, [⟨"i", "t", .ok []⟩]⟩, fun _ => 0⟩ []
      (.ok ⟨none, [⟨"i", "t", .ok []⟩]⟩)).outcome = some limitMessage :=
  (loop_turn_bound _ [] _ rfl).2
    (fun _ => ⟨⟨none, [⟨"i", "t", .ok []⟩]⟩, rfl, by simp⟩) _ rfl (by simp)

/-- C6 (amended): within one execution, a tool whose function returns
normally at the canonicalized arguments is invoked at most once for a given
(name, canonicalized-arguments) pair — repeats are answered from the result
cache.  (Only successful invocations are cached, so the restriction to
normally-returning invocations is necessary; see the counterexample.) -/
theorem tool_cache_idempotent_on_success (cfg : LoopCfg) (fuel : Nat)
    (rm : AssistantMsg) (turns : Nat) (msgs : List Msg) (cache : Cache)
    (succ : List (String × String)) (req : Bool) (n : String) (a : ArgsObj)
    (f : ToolFun) (out : String) (hf : cfg.env n = some f)
    (hok : f (sortArgs a) = .ok out) :
    (runLoop cfg fuel rm turns msgs cache succ req).invoked.countP
      (fun p => decide (p = (n, sortArgs a))) ≤ 1 :=
  le_trans (Nat.le_add_right _ _)
    (runLoop_invoked_bound cfg n a f out hf hok fuel rm turns msgs cache succ req)

/-- C6 witness: two identical calls to a normally-returning tool in one turn
invoke it at most once. -/
theorem tool_cache_idempotent_on_success_witness :
    (runLoop ⟨fun _ => some (fun _ => .ok "done"), true, 50, 90000, 1000,
        fun _ => .errorPayload "x", fun _ => 0⟩ 50
      ⟨none, [⟨"i1", "echo", .ok []⟩, ⟨"i2", "echo", .ok []⟩]⟩
      0 [] [] [] false).invoked.countP
      (fun p => decide (p = ("echo", sortArgs []))) ≤ 1 :=
  tool_cache_idempotent_on_success _ 50 _ 0 [] [] [] false "echo" []
    (fun _ => .ok "done") "done" rfl rfl

/-- C6 counterexample: a raising tool is not cached, so the very same
(name, arguments) request issued twice in one turn invokes the underlying
function twice — "invoked at most once" fails as stated. -/
theorem tool_cache_idempotence_cex :
    ¬ (∀ (cfg : LoopCfg) (fuel : Nat) (rm : AssistantMsg) (turns : Nat)
        (msgs : List Msg) (cache : Cache) (succ : List (String × String))
        (req : Bool) (n : String) (a : ArgsObj),
        (runLoop cfg fuel rm turns msgs cache succ req).invoked.countP
          (fun p => decide (p = (n, sortArgs a))) ≤ 1) := by
  intro h
  have hb := h ⟨fun _ => some (fun _ => .error "kaboom"), true, 50, 90000, 1000,
      fun _ => .errorPayload "x", fun _ => 0⟩ 50
    ⟨none, [⟨"i1", "boom", .ok []⟩, ⟨"i2", "boom", .ok []⟩]⟩
    0 [] [] [] false "boom" []
  exact absurd hb (by decide)

/-- C7: starting with no finalize request, the loop injects the answer-now
system message at most once overall; any iteration whose clock reading meets
the soft deadline sends `tool_choice = "none"` on its follow-up completion
call; and if some iteration meets the deadline the injection happens exactly
once. -/
theorem soft_deadline_single_injection (cfg : LoopCfg) (fuel : Nat)
    (rm : AssistantMsg) (turns : Nat) (msgs : List Msg) (cache : Cache)
    (succ : List (String × String)) (hT : cfg.hasTools = true) :
    (runLoop cfg fuel rm turns msgs cache succ false).trace.countP (·.injectedNow) ≤ 1
    ∧ (∀ rec ∈ (runLoop cfg fuel rm turns msgs cache succ false).trace,
        cfg.deadline ≤ rec.time → rec.toolChoiceSent = some "none")
    ∧ ((∃ rec ∈ (runLoop cfg fuel rm turns msgs cache succ false).trace,
        cfg.deadline ≤ rec.time) →
        (runLoop cfg fuel rm turns msgs cache succ false).trace.countP
          (·.injectedNow) = 1) := by
  refine ⟨?_, ?_, ?_⟩
  · simpa using runLoop_injected_le cfg fuel rm turns msgs cache succ false
  · intro rec hrec hd
    exact runLoop_choice_none cfg hT fuel rm turns msgs cache succ false rec hrec
      (Or.inr hd)
  · intro hex
    have h1 := runLoop_injected_le cfg fuel rm turns msgs cache succ false
    have h2 := runLoop_injected_reached cfg fuel rm turns msgs cache succ hex
    simp only [Bool.false_eq_true, if_false] at h1
    omega

/-- C7 witness: a run past the soft deadline injects the finalize message
exactly once. -/
theorem soft_deadline_single_injection_witness :
    (runLoop ⟨fun _ => none, true, 50, 90000, 3, fun _ => .errorPayload "x",
        fun _ => 5⟩ 50
      ⟨none, [⟨"id1", "t1", .ok []⟩]⟩ 0 [] [] [] false).trace.countP
      (·.injectedNow) = 1 :=
  (soft_deadline_single_injection ⟨fun _ => none, true, 50, 90000, 3,
      fun _ => .errorPayload "x", fun _ => 5⟩ 50
    ⟨none, [⟨"id1", "t1", .ok []⟩]⟩ 0 [] [] [] rfl).2.2 (by decide)

/-- C9: for every way the sandbox stdout stream is split into chunks, the
reassembled line sequence — and hence the payload the pending chat promise
settles with — equals the first complete value following the
`__RESPONSE_START__:` marker in the whole stream. -/
theorem response_marker_chunk_invariant (chunks : List (List Char)) :
    hostSettledPayload chunks = firstResponsePayload chunks.flatten := by
  unfold hostSettledPayload firstResponsePayload
  rw [emittedLines_eq_streamLines]

/-- C10: a tool_call naming an undiscovered function produces exactly the
tool-role result `Error: Tool '<name>' is not available.` at its position,
and the turn still produces one result per tool_call. -/
theorem unknown_tool_result (env : ToolEnv) (cache : Cache)
    (calls : List ToolCall) (i : Nat) (c : ToolCall) (a : ArgsObj)
    (h1 : calls[i]? = some c) (h2 : c.args = .ok a) (h3 : env c.name = none) :
    (execToolCalls env cache calls).msgs[i]? =
      some ⟨c.id, c.name, unavailableText c.name⟩
    ∧ (execToolCalls env cache calls).msgs.length = calls.length :=
  ⟨execToolCalls_unavailable env calls cache i c a h1 h2 h3,
    execToolCalls_length env cache calls⟩

/-- C10 witness: a concrete unavailable tool call is answered in place. -/
theorem unknown_tool_result_witness :
    (execToolCalls (fun _ => none) [] [⟨"id9", "ghost", .ok []⟩]).msgs[0]? =
      some ⟨"id9", "ghost", unavailableText "ghost"⟩
    ∧ (execToolCalls (fun _ => none) [] [⟨"id9", "ghost", .ok []⟩]).msgs.length
      = 1 :=
  unknown_tool_result (fun _ => none) [] [⟨"id9", "ghost", .ok []⟩] 0
    ⟨"id9", "ghost", .ok []⟩ [] (by decide) rfl rfl

/-! ### Store lemmas -/

theorem isPrefixOf_append_self : ∀ (l t : List Char), l.isPrefixOf (l ++ t) = true := by
  intro l t
  induction l with
  | nil => simp [List.isPrefixOf]
  | cons a as ih => simp [List.isPrefixOf, ih]

theorem strStartsWith_append (a x : String) : strStartsWith (a ++ x) a = true := by
  unfold strStartsWith
  rw [data_append]
  exact isPrefixOf_append_self a.data x.data

theorem mkFreshId_startsWith (ws : String) (n : Nat) :
    strStartsWith (mkFreshId ws n) (ws ++ "/") = true := by
  have hd : (mkFreshId ws n).data
      = (ws ++ "/").data ++ ("u".data ++ (toString n).data) := by
    simp [mkFreshId, data_append, List.append_assoc]
  unfold strStartsWith
  rw [hd]
  exact isPrefixOf_append_self _ _

theorem mkFreshId_ne (ws : String) (n : Nat) (fid : String)
    (h : strStartsWith fid (ws ++ "/") = false) : mkFreshId ws n ≠ fid := by
  intro he
  rw [← he, mkFreshId_startsWith] at h
  cases h

theorem lookup_cons_of_ne (k k' : String) (v : SessionRec)
    (l : List (String × SessionRec)) (h : k' ≠ k) :
    ((k, v) :: l).lookup k' = l.lookup k' := by
  have hb : (k' == k) = false := beq_eq_false_iff_ne.mpr h
  simp [List.lookup, hb]

theorem lookup_map_update (l : List (String × SessionRec)) (id k : String)
    (f : SessionRec → SessionRec) (h : k ≠ id) :
    (l.map fun p => if p.1 = id then (p.1, f p.2) else p).lookup k = l.lookup k := by
  induction l with
  | nil => rfl
  | cons p ps ih =>
    simp only [List.map_cons]
    by_cases hp : p.1 = id
    · rw [if_pos hp]
      have hb : (k == p.1) = false := beq_eq_false_iff_ne.mpr (hp ▸ h)
      simp [List.lookup, hb, ih]
    · rw [if_neg hp]
      cases hb : k == p.1 <;> simp [List.lookup, hb, ih]

theorem lookup_map_update_self (l : List (String × SessionRec)) (id : String)
    (f : SessionRec → SessionRec) :
    (l.map fun p => if p.1 = id then (p.1, f p.2) else p).lookup id
      = (l.lookup id).map f := by
  induction l with
  | nil => rfl
  | cons p ps ih =>
    simp only [List.map_cons]
    by_cases hp : p.1 = id
    · rw [if_pos hp]
      have hb : (id == p.1) = true := beq_iff_eq.mpr hp.symm
      simp [List.lookup, hb]
    · rw [if_neg hp]
      have hb : (id == p.1) = false := beq_eq_false_iff_ne.mpr (fun he => hp he.symm)
      simp [List.lookup, hb, ih]

theorem lookup_updateRec_ne (st : Store) (id k : String)
    (f : SessionRec → SessionRec) (h : k ≠ id) :
    (updateRec st id f).recs.lookup k = st.recs.lookup k :=
  lookup_map_update st.recs id k f h

theorem lookup_updateRec_self (st : Store) (id : String)
    (f : SessionRec → SessionRec) :
    (updateRec st id f).recs.lookup id = (st.recs.lookup id).map f :=
  lookup_map_update_self st.recs id f

/-- C5: saving under a session id owned by another workspace forks.  A new
record owned by the caller's workspace is created, every store operation of
the save targets only the new id, the new record's `messages.json` payload
is exactly the provided message list, the returned id differs from the
given foreign id, and the foreign record is left untouched. -/
theorem saveSession_fork (ws fid : String) (msgs : ChatMsgs) (agId : String)
    (title : Option String) (store : Store) (colId : String)
    (hslash : strContainsChar fid '/' = true)
    (hfor : strStartsWith fid (ws ++ "/") = false) :
    (saveSessionCore ws true (some colId) (some fid) msgs agId title store []).result
        = some (mkFreshId ws store.fresh)
    ∧ mkFreshId ws store.fresh ≠ fid
    ∧ (∀ op ∈ (saveSessionCore ws true (some colId) (some fid) msgs agId title
          store []).trace, op.target = mkFreshId ws store.fresh)
    ∧ ((saveSessionCore ws true (some colId) (some fid) msgs agId title store
          []).store.recs.lookup (mkFreshId ws store.fresh)).map
        (fun r => r.files.lookup "messages.json") = some (some msgs)
    ∧ (saveSessionCore ws true (some colId) (some fid) msgs agId title store
          []).store.recs.lookup fid = store.recs.lookup fid := by
  have hne : mkFreshId ws store.fresh ≠ fid := mkFreshId_ne ws store.fresh fid hfor
  have hrun : saveSessionCore ws true (some colId) (some fid) msgs agId title store []
      = ⟨some (mkFreshId ws store.fresh),
          updateRec (updateRec (updateRec
            ⟨(mkFreshId ws store.fresh,
                ⟨true, title.getD DEFAULT_CHAT_TITLE, agId, []⟩) :: store.recs,
              store.fresh + 1⟩
            (mkFreshId ws store.fresh)
            (stageRec (title.getD DEFAULT_CHAT_TITLE) agId))
            (mkFreshId ws store.fresh) (putMessagesFile msgs))
            (mkFreshId ws store.fresh) commitRec,
          [.create (mkFreshId ws store.fresh), .edit (mkFreshId ws store.fresh),
            .putFile (mkFreshId ws store.fresh),
            .fetchPut (mkFreshId ws store.fresh),
            .commit (mkFreshId ws store.fresh)]⟩ := by
    simp [saveSessionCore, saveWriteProtocol, nextOutcome, hslash, hfor]
  refine ⟨?_, hne, ?_, ?_, ?_⟩
  · rw [hrun]
  · rw [hrun]
    simp [SaveOp.target]
  · rw [hrun]
    simp only [lookup_updateRec_self]
    simp [List.lookup, stageRec, putMessagesFile, commitRec]
  · rw [hrun]
    rw [lookup_updateRec_ne _ _ _ _ (Ne.symm hne),
      lookup_updateRec_ne _ _ _ _ (Ne.symm hne),
      lookup_updateRec_ne _ _ _ _ (Ne.symm hne)]
    exact lookup_cons_of_ne _ _ _ _ (Ne.symm hne)

/-- C5 witness: a concrete foreign-workspace save returns a fresh id in the
caller's workspace, stores exactly the provided messages there and leaves
the foreign record alone. -/
theorem saveSession_fork_witness :
    (saveSessionCore "wsA" true (some "wsA/col") (some "wsB/s1") ["m1", "m2"]
        "ag" none ⟨[("wsB/s1", ⟨false, "Old", "a0", []⟩)], 0⟩ []).result
      = some (mkFreshId "wsA" 0)
    ∧ mkFreshId "wsA" 0 ≠ "wsB/s1"
    ∧ ((saveSessionCore "wsA" true (some "wsA/col") (some "wsB/s1") ["m1", "m2"]
        "ag" none ⟨[("wsB/s1", ⟨false, "Old", "a0", []⟩)], 0⟩
        []).store.recs.lookup (mkFreshId "wsA" 0)).map
        (fun r => r.files.lookup "messages.json") = some (some ["m1", "m2"])
    ∧ (saveSessionCore "wsA" true (some "wsA/col") (some "wsB/s1") ["m1", "m2"]
        "ag" none ⟨[("wsB/s1", ⟨false, "Old", "a0", []⟩)], 0⟩
        []).store.recs.lookup "wsB/s1"
      = (⟨[("wsB/s1", ⟨false, "Old", "a0", []⟩)], 0⟩ : Store).recs.lookup "wsB/s1" := by
  have h := saveSession_fork "wsA" "wsB/s1" ["m1", "m2"] "ag" none
    ⟨[("wsB/s1", ⟨false, "Old", "a0", []⟩)], 0⟩ "wsA/col" (by decide) (by decide)
  exact ⟨h.1, h.2.1, h.2.2.2.1, h.2.2.2.2⟩

/-- C8: the save of an owned session follows stage-edit → upload → PUT →
commit; a staging failure of the commit re-stages and retries the
edit/upload/commit tail exactly once (success on the retry still saves); a
staging failure on the retried commit surfaces as a failed save after
exactly two commit attempts; and a staging failure of the upload re-stages
and retries the upload once before continuing.  (A surfaced failure returns
`null` to the caller; the in-memory message list passed in is never
modified.) -/
theorem saveSession_staged_retry (ws slug : String) (msgs : ChatMsgs)
    (agId t : String) (col : Option String) (store : Store) (r0 : SessionRec)
    (hrec : store.recs.lookup (ws ++ "/" ++ slug) = some r0) :
    ((saveSessionCore ws true col (some (ws ++ "/" ++ slug)) msgs agId (some t)
        store []).trace
      = [.edit (ws ++ "/" ++ slug), .putFile (ws ++ "/" ++ slug),
          .fetchPut (ws ++ "/" ++ slug), .commit (ws ++ "/" ++ slug)]
      ∧ (saveSessionCore ws true col (some (ws ++ "/" ++ slug)) msgs agId (some t)
          store []).result = some (ws ++ "/" ++ slug)
      ∧ ((saveSessionCore ws true col (some (ws ++ "/" ++ slug)) msgs agId (some t)
          store []).store.recs.lookup (ws ++ "/" ++ slug)).map
          (fun r => (r.staged, r.files.lookup "messages.json"))
        = some (false, some msgs))
    ∧ ((saveSessionCore ws true col (some (ws ++ "/" ++ slug)) msgs agId (some t)
        store [.ok, .ok, .errStaging]).trace
      = [.edit (ws ++ "/" ++ slug), .putFile (ws ++ "/" ++ slug),
          .fetchPut (ws ++ "/" ++ slug), .commit (ws ++ "/" ++ slug),
          .edit (ws ++ "/" ++ slug), .putFile (ws ++ "/" ++ slug),
          .fetchPut (ws ++ "/" ++ slug), .commit (ws ++ "/" ++ slug)]
      ∧ (saveSessionCore ws true col (some (ws ++ "/" ++ slug)) msgs agId (some t)
          store [.ok, .ok, .errStaging]).result = some (ws ++ "/" ++ slug)
      ∧ ((saveSessionCore ws true col (some (ws ++ "/" ++ slug)) msgs agId (some t)
          store [.ok, .ok, .errStaging]).store.recs.lookup
            (ws ++ "/" ++ slug)).map
          (fun r => (r.staged, r.files.lookup "messages.json"))
        = some (false, some msgs))
    ∧ ((saveSessionCore ws true col (some (ws ++ "/" ++ slug)) msgs agId (some t)
        store [.ok, .ok, .errStaging, .ok, .ok, .errStaging]).result = none
      ∧ (saveSessionCore ws true col (some (ws ++ "/" ++ slug)) msgs agId (some t)
          store [.ok, .ok, .errStaging, .ok, .ok, .errStaging]).trace.countP
          (fun op => match op with | SaveOp.commit _ => true | _ => false) = 2)
    ∧ (saveSessionCore ws true col (some (ws ++ "/" ++ slug)) msgs agId (some t)
        store [.ok, .errStaging]).trace
      = [.edit (ws ++ "/" ++ slug), .putFile (ws ++ "/" ++ slug),
          .edit (ws ++ "/" ++ slug), .putFile (ws ++ "/" ++ slug),
          .fetchPut (ws ++ "/" ++ slug), .commit (ws ++ "/" ++ slug)] := by
  have hsw : strStartsWith (ws ++ "/" ++ slug) (ws ++ "/") = true :=
    strStartsWith_append (ws ++ "/") slug
  refine ⟨⟨?_, ?_, ?_⟩, ⟨?_, ?_, ?_⟩, ⟨?_, ?_⟩, ?_⟩
  · simp [saveSessionCore, saveWriteProtocol, nextOutcome, hsw]
  · simp [saveSessionCore, saveWriteProtocol, nextOutcome, hsw]
  · simp only [saveSessionCore, saveWriteProtocol, nextOutcome, hsw,
      Bool.and_false, Bool.not_true, Option.isNone_some, Bool.false_and,
      Bool.and_self]
    simp [lookup_updateRec_self, hrec, stageRec, putMessagesFile, commitRec,
      List.lookup]
  · simp [saveSessionCore, saveWriteProtocol, nextOutcome, hsw]
  · simp [saveSessionCore, saveWriteProtocol, nextOutcome, hsw]
  · simp only [saveSessionCore, saveWriteProtocol, nextOutcome, hsw,
      Bool.and_false, Bool.not_true, Option.isNone_some, Bool.false_and,
      Bool.and_self]
    simp [lookup_updateRec_self, hrec, stageRec, putMessagesFile, commitRec,
      List.lookup]
  · simp [saveSessionCore, saveWriteProtocol, nextOutcome, hsw]
  · simp [saveSessionCore, saveWriteProtocol, nextOutcome, hsw]
  · simp [saveSessionCore, saveWriteProtocol, nextOutcome, hsw]

/-- C8 witness: the staged write protocol on a concrete owned record, with
an all-success script and with a commit staging failure retried once. -/
theorem saveSession_staged_retry_witness :
    ((saveSessionCore "w" true none (some ("w" ++ "/" ++ "s1")) ["m"] "ag"
        (some "T") ⟨[("w/s1", ⟨false, "Old", "a0", []⟩)], 0⟩ []).trace
      = [.edit ("w" ++ "/" ++ "s1"), .putFile ("w" ++ "/" ++ "s1"),
          .fetchPut ("w" ++ "/" ++ "s1"), .commit ("w" ++ "/" ++ "s1")])
    ∧ ((saveSessionCore "w" true none (some ("w" ++ "/" ++ "s1")) ["m"] "ag"
        (some "T") ⟨[("w/s1", ⟨false, "Old", "a0", []⟩)], 0⟩
        [.ok, .ok, .errStaging, .ok, .ok, .errStaging]).result = none) := by
  have h := saveSession_staged_retry "w" "s1" ["m"] "ag" "T" none
    ⟨[("w/s1", ⟨false, "Old", "a0", []⟩)], 0⟩ ⟨false, "Old", "a0", []⟩ (by decide)
  exact ⟨h.1.1, h.2.2.1.1⟩

end AgentHub
